import Mathlib

/-
Verification development for the wangemu terminal-multiplexer core.

Shallow embedding of the MXD terminal-mux card (src/src/core/io/IoCardTermMux.cpp,
src/src/IoCardTermMux.h) and of the serial-port reconnect ladder
(src/src/platform/common/SerialPort.cpp).  C++ byte values are modelled as Nat,
std::deque<uint8_t> as List Nat (front of the deque = head of the list),
booleans as Bool, and the monotonic counters as Nat.  Null-pointer tests such
as `if (term.serial_port)` become Bool fields of the channel record.

The bytes a channel emits on its outbound (mux -> terminal) path by the flow
control layer are recorded in an `out` trace field: SerialPort::sendXOFF and
ITermSession::mxdToTerm(0x13) both put 0x13 on that path, and likewise 0x11
for XON.  The serial driver's own XOFF latch (SerialPort::m_xoffSent, which
guards emission inside SerialPort::sendXON/sendXOFF) is modelled by the
`port_xoff` field.
-/

namespace Wangemu

/-- RX_FIFO_MAX from IoCardTermMux.h: FIFO capacity, 2048. -/
def RX_FIFO_MAX : Nat := 2048

/-- RX_FIFO_XOFF_THRESHOLD from IoCardTermMux.h: (RX_FIFO_MAX * 3) / 4. -/
def RX_FIFO_XOFF_THRESHOLD : Nat := (RX_FIFO_MAX * 3) / 4

/-- RX_FIFO_XON_THRESHOLD from IoCardTermMux.h: (RX_FIFO_MAX * 1) / 4. -/
def RX_FIFO_XON_THRESHOLD : Nat := (RX_FIFO_MAX * 1) / 4

/-- Per-terminal state, from struct m_term_t in IoCardTermMux.h, restricted to
the fields the receive/flow-control path touches.  `serial_port` models the
pointer being non-null, `serial_is_open` models serial_port->isOpen(),
`session` models the session pointer being non-null and `session_is_active`
models session->isActive().  `port_xoff` is SerialPort::m_xoffSent.  `out`
is the trace of flow-control bytes emitted on the channel's outbound path. -/
structure MTerm where
  serial_port : Bool
  serial_is_open : Bool
  session : Bool
  session_is_active : Bool
  port_xoff : Bool
  rx_fifo : List Nat
  rx_overrun_drops : Nat
  xoff_sent : Bool
  xoff_sent_count : Nat
  xon_sent_count : Nat
  out : List Nat
  deriving Repr, DecidableEq

/-- Constructor-time value of a channel (IoCardTermMux::IoCardTermMux): no
transport bound, empty FIFO, flow control quiescent, counters zero. -/
def MTerm.init : MTerm :=
  { serial_port := false
    serial_is_open := false
    session := false
    session_is_active := false
    port_xoff := false
    rx_fifo := []
    rx_overrun_drops := 0
    xoff_sent := false
    xoff_sent_count := 0
    xon_sent_count := 0
    out := [] }

instance : Inhabited MTerm := ⟨MTerm.init⟩

/-- IoCardTermMux::sendXON.  The serial branch calls SerialPort::sendXON,
which emits 0x11 only while its own m_xoffSent latch is set (and then clears
it); the session branch emits 0x11 unconditionally via mxdToTerm. -/
def sendXON (t : MTerm) : MTerm :=
  if t.serial_port && t.serial_is_open then
    let t1 := if t.port_xoff then
        { t with out := t.out ++ [0x11], port_xoff := false } else t
    { t1 with xoff_sent := false, xon_sent_count := t1.xon_sent_count + 1 }
  else if t.session && t.session_is_active then
    { t with out := t.out ++ [0x11], xoff_sent := false,
             xon_sent_count := t.xon_sent_count + 1 }
  else t

/-- IoCardTermMux::sendXOFF.  The serial branch calls SerialPort::sendXOFF,
which emits 0x13 only while its m_xoffSent latch is clear (and then sets it);
the session branch emits 0x13 unconditionally via mxdToTerm. -/
def sendXOFF (t : MTerm) : MTerm :=
  if t.serial_port && t.serial_is_open then
    let t1 := if !t.port_xoff then
        { t with out := t.out ++ [0x13], port_xoff := true } else t
    { t1 with xoff_sent := true, xoff_sent_count := t1.xoff_sent_count + 1 }
  else if t.session && t.session_is_active then
    { t with out := t.out ++ [0x13], xoff_sent := true,
             xoff_sent_count := t.xoff_sent_count + 1 }
  else t

/-- IoCardTermMux::checkAndSendFlowControl. -/
def checkAndSendFlowControl (t : MTerm) : MTerm :=
  if RX_FIFO_XOFF_THRESHOLD ≤ t.rx_fifo.length ∧ t.xoff_sent = false then
    sendXOFF t
  else if t.rx_fifo.length ≤ RX_FIFO_XON_THRESHOLD ∧ t.xoff_sent = true then
    sendXON t
  else t

/-- Body of IoCardTermMux::queueRxByte after the flow-control filter: evict
the oldest byte (counting an overrun drop) when the FIFO is at capacity, push
the byte at the tail, and send XOFF when the high watermark is reached. -/
def queueRxByteCore (t : MTerm) (b : Nat) : MTerm :=
  let t1 := if RX_FIFO_MAX ≤ t.rx_fifo.length then
      { t with rx_fifo := t.rx_fifo.tail,
               rx_overrun_drops := t.rx_overrun_drops + 1 }
    else t
  let t2 := { t1 with rx_fifo := t1.rx_fifo ++ [b] }
  if RX_FIFO_XOFF_THRESHOLD ≤ t2.rx_fifo.length ∧ t2.xoff_sent = false then
    sendXOFF t2
  else t2

/-- Per-channel effect of IoCardTermMux::queueRxByte: bytes 0x11 and 0x13 are
filtered out before insertion. -/
def queueRxByteT (t : MTerm) (b : Nat) : MTerm :=
  if b = 0x11 ∨ b = 0x13 then t else queueRxByteCore t b

/-- Per-channel effect of IoCardTermMux::queueRxBytes (batch insert): compute
the free space, drop up to half of the FIFO when there is none, append the
prefix that fits, and count the bytes that did not fit as overrun drops. -/
def queueRxBytesCore (t : MTerm) (data : List Nat) : MTerm :=
  let available0 := if t.rx_fifo.length < RX_FIFO_MAX then
      RX_FIFO_MAX - t.rx_fifo.length else 0
  let t1 := if available0 = 0 then
      let dropReq := min data.length (RX_FIFO_MAX / 2)
      let dropped := min dropReq t.rx_fifo.length
      { t with rx_fifo := t.rx_fifo.drop dropped,
               rx_overrun_drops := t.rx_overrun_drops + dropped }
    else t
  let available := if available0 = 0 then RX_FIFO_MAX - t1.rx_fifo.length
    else available0
  let addN := min data.length available
  let t2 := { t1 with rx_fifo := t1.rx_fifo ++ data.take addN }
  if addN < data.length then
    { t2 with rx_overrun_drops := t2.rx_overrun_drops + (data.length - addN) }
  else t2

/-- Per-channel effect of reading IN_UART_DATA (port 0x06) in
IoCardTermMux::i8080_in_func: pop the head (0 when empty) and run
checkAndSendFlowControl after a successful pop. -/
def uartDataReadT (t : MTerm) : Nat × MTerm :=
  match t.rx_fifo with
  | [] => (0, t)
  | b :: rest => (b, checkAndSendFlowControl { t with rx_fifo := rest })

/-- Card state, from the IoCardTermMux data members used on the receive,
interrupt and ready/busy paths.  `terms` holds the per-terminal records
(the C++ array m_terms[4]). -/
structure MuxState where
  terms : List MTerm
  num_terms : Nat
  uart_sel : Nat
  interrupt_pending : Bool
  selected : Bool
  cpb : Bool
  io_offset : Nat
  prime_seen : Bool
  obs_seen : Bool
  cbs_seen : Bool
  obscbs_offset : Nat
  obscbs_data : Nat
  rbi : Nat
  deriving Repr, DecidableEq

/-- Value of the interrupt line recomputed by IoCardTermMux::updateInterrupt:
true iff some populated channel (index < num_terms) has a non-empty RX FIFO. -/
def updateInterruptB (s : MuxState) : Bool :=
  (List.range s.num_terms).any (fun i => !(s.terms.getD i default).rx_fifo.isEmpty)

/-- IoCardTermMux::updateInterrupt. -/
def updateInterrupt (s : MuxState) : MuxState :=
  { s with interrupt_pending := updateInterruptB s }

/-- Replace channel n by f applied to it (the C++ in-place mutation of
m_terms[term_num]). -/
def modifyTerm (s : MuxState) (n : Nat) (f : MTerm → MTerm) : MuxState :=
  { s with terms := s.terms.set n (f (s.terms.getD n default)) }

/-- IoCardTermMux::queueRxByte.  A flow-control byte returns before the FIFO
insertion and before updateInterrupt. -/
def queueRxByte (s : MuxState) (n : Nat) (b : Nat) : MuxState :=
  if b = 0x11 ∨ b = 0x13 then s
  else updateInterrupt (modifyTerm s n (fun t => queueRxByteCore t b))

/-- IoCardTermMux::queueRxBytes.  Zero-length input returns immediately;
otherwise the batch body runs and updateInterrupt is called once at the end. -/
def queueRxBytes (s : MuxState) (n : Nat) (data : List Nat) : MuxState :=
  if data.length = 0 then s
  else updateInterrupt (modifyTerm s n (fun t => queueRxBytesCore t data))

/-- IoCardTermMux::serialRxByte: queueRxByte, then (only when the FIFO has
drained to the XON watermark while XOFF is outstanding) checkAndSendFlowControl. -/
def serialRxByte (s : MuxState) (n : Nat) (b : Nat) : MuxState :=
  let s1 := queueRxByte s n b
  let t := s1.terms.getD n default
  if t.rx_fifo.length ≤ RX_FIFO_XON_THRESHOLD ∧ t.xoff_sent = true then
    modifyTerm s1 n checkAndSendFlowControl
  else s1

/-- IoCardTermMux::receiveKeystroke: ignored when the channel has a (non-null)
serial port; otherwise the keycode is queued through queueRxByte after the
uint8_t cast. -/
def receiveKeystroke (s : MuxState) (n : Nat) (keycode : Nat) : MuxState :=
  if (s.terms.getD n default).serial_port then s
  else queueRxByte s n (keycode % 256)

/-- Card-level IN_UART_DATA read (IoCardTermMux::i8080_in_func, case
IN_UART_DATA): pop from the selected UART's FIFO, run flow control on a
successful pop, then updateInterrupt in every case. -/
def uartDataRead (s : MuxState) : Nat × MuxState :=
  let t := s.terms.getD s.uart_sel default
  match t.rx_fifo with
  | [] => (0, updateInterrupt s)
  | b :: rest =>
      let t1 := checkAndSendFlowControl { t with rx_fifo := rest }
      (b, updateInterrupt { s with terms := s.terms.set s.uart_sel t1 })

/-- IoCardTermMux::updateRbi.  Returns the value driven onto the host's
"device ready" line via setDevRdy, or none when the line is not driven
(io_offset zero or card not selected). -/
def updateRbi (s : MuxState) : Option Bool :=
  if s.io_offset = 0 ∨ s.selected = false then none
  else
    let busy := ((s.obs_seen || s.cbs_seen) && decide (4 ≤ s.io_offset))
             || decide ((s.rbi >>> (s.io_offset - 1)) &&& 1 ≠ 0)
    some (!busy)

/-- Sequential push of a byte list through IoCardTermMux::queueRxByte, one
byte at a time, into channel n. -/
def pushSeq (s : MuxState) (n : Nat) (data : List Nat) : MuxState :=
  data.foldl (fun acc b => queueRxByte acc n b) s

/-- Per-channel sequential push through queueRxByteT. -/
def pushSeqT (t : MTerm) (data : List Nat) : MTerm :=
  data.foldl queueRxByteT t

/-- Iterated card-level IN_UART_DATA reads (state part only). -/
def drainCard (s : MuxState) : Nat → MuxState
  | 0 => s
  | k + 1 => drainCard (uartDataRead s).2 k

/-- Per-channel iterated UART data reads (state part only). -/
def drainT (t : MTerm) : Nat → MTerm
  | 0 => t
  | k + 1 => drainT (uartDataReadT t).2 k

/-- BASE_RECONNECT_DELAY_MS from SerialPort.h. -/
def BASE_RECONNECT_DELAY_MS : Nat := 250

/-- MAX_RECONNECT_ATTEMPTS from SerialPort.h. -/
def MAX_RECONNECT_ATTEMPTS : Nat := 10

/-- SerialPort::getReconnectDelayMs: exponential backoff from the current
attempt counter, shift clamped at 5, result capped at 10000 ms. -/
def getReconnectDelayMs (attempts : Nat) : Nat :=
  min (BASE_RECONNECT_DELAY_MS * (1 <<< min attempts 5)) 10000

/-- Reconnect bookkeeping of SerialPort: the attempt counter and connected
flag (m_reconnectAttempts, m_connected). -/
structure ReconnectState where
  attempts : Nat
  connected : Bool
  deriving Repr, DecidableEq

/-- One pass of the error-recovery block in SerialPort::receiveThreadProc
after a read error or zero-byte read: give up (none) once the attempt counter
has reached MAX_RECONNECT_ATTEMPTS; otherwise compute the sleep delay from the
current counter, increment the counter, and attempt reopen; a successful
open (SerialPort::open) stores 0 into the counter.  Returns the delay slept
and the resulting state. -/
def reconnectStep (r : ReconnectState) (openSucceeds : Bool) :
    Option (Nat × ReconnectState) :=
  if r.attempts < MAX_RECONNECT_ATTEMPTS then
    let delay := getReconnectDelayMs r.attempts
    if openSucceeds then
      some (delay, { attempts := 0, connected := true })
    else
      some (delay, { attempts := r.attempts + 1, connected := false })
  else none

/-- Channel is bound to an open serial port or to an active session: exactly
the condition under which sendXON / sendXOFF reach a transport. -/
def flowBound (t : MTerm) : Prop :=
  (t.serial_port && t.serial_is_open) = true ∨
  (t.session && t.session_is_active) = true

instance (t : MTerm) : Decidable (flowBound t) := by
  unfold flowBound; infer_instance

/-- Interrupt-line invariant of the spec: interrupt_pending equals the OR
over populated channels of FIFO non-emptiness. -/
def interruptInv (s : MuxState) : Prop :=
  s.interrupt_pending = updateInterruptB s

instance (s : MuxState) : Decidable (interruptInv s) := by
  unfold interruptInv; infer_instance

/-! ### Numeric values of the configuration constants -/

theorem RX_FIFO_MAX_eq : RX_FIFO_MAX = 2048 := rfl

theorem XOFF_TH_eq : RX_FIFO_XOFF_THRESHOLD = 1536 := rfl

theorem XON_TH_eq : RX_FIFO_XON_THRESHOLD = 512 := rfl

/-! ### List helpers -/

theorem getD_set_self {α : Type} [Inhabited α] (l : List α) (n : Nat) (a : α)
    (h : n < l.length) : (l.set n a).getD n default = a := by
  simp [List.getD_eq_getElem?_getD, List.getElem?_set_self, h]

theorem getD_set_ne {α : Type} [Inhabited α] (l : List α) {n m : Nat} (a : α)
    (h : n ≠ m) : (l.set n a).getD m default = l.getD m default := by
  simp [List.getD_eq_getElem?_getD, List.getElem?_set_ne h]

/-! ### sendXON / sendXOFF / checkAndSendFlowControl basic lemmas -/

theorem sendXOFF_rx_fifo (t : MTerm) : (sendXOFF t).rx_fifo = t.rx_fifo := by
  simp only [sendXOFF]
  split
  · split <;> rfl
  · split <;> rfl

theorem sendXOFF_drops (t : MTerm) :
    (sendXOFF t).rx_overrun_drops = t.rx_overrun_drops := by
  simp only [sendXOFF]
  split
  · split <;> rfl
  · split <;> rfl

theorem sendXON_rx_fifo (t : MTerm) : (sendXON t).rx_fifo = t.rx_fifo := by
  simp only [sendXON]
  split
  · split <;> rfl
  · split <;> rfl

theorem sendXON_drops (t : MTerm) :
    (sendXON t).rx_overrun_drops = t.rx_overrun_drops := by
  simp only [sendXON]
  split
  · split <;> rfl
  · split <;> rfl

theorem checkFlow_rx_fifo (t : MTerm) :
    (checkAndSendFlowControl t).rx_fifo = t.rx_fifo := by
  simp only [checkAndSendFlowControl]
  split
  · exact sendXOFF_rx_fifo t
  · split
    · exact sendXON_rx_fifo t
    · rfl

theorem checkFlow_drops (t : MTerm) :
    (checkAndSendFlowControl t).rx_overrun_drops = t.rx_overrun_drops := by
  simp only [checkAndSendFlowControl]
  split
  · exact sendXOFF_drops t
  · split
    · exact sendXON_drops t
    · rfl

theorem checkFlow_noop (t : MTerm)
    (h1 : ¬ (RX_FIFO_XOFF_THRESHOLD ≤ t.rx_fifo.length ∧ t.xoff_sent = false))
    (h2 : ¬ (t.rx_fifo.length ≤ RX_FIFO_XON_THRESHOLD ∧ t.xoff_sent = true)) :
    checkAndSendFlowControl t = t := by
  simp only [checkAndSendFlowControl, if_neg h1, if_neg h2]

theorem checkFlow_xon (t : MTerm)
    (h1 : ¬ (RX_FIFO_XOFF_THRESHOLD ≤ t.rx_fifo.length ∧ t.xoff_sent = false))
    (h2 : t.rx_fifo.length ≤ RX_FIFO_XON_THRESHOLD)
    (h3 : t.xoff_sent = true) :
    checkAndSendFlowControl t = sendXON t := by
  simp only [checkAndSendFlowControl, if_neg h1, if_pos (And.intro h2 h3)]

theorem sendXOFF_unbound (t : MTerm) (h : ¬ flowBound t) : sendXOFF t = t := by
  rw [flowBound, not_or] at h
  simp [sendXOFF, h.1, h.2]

theorem sendXON_unbound (t : MTerm) (h : ¬ flowBound t) : sendXON t = t := by
  rw [flowBound, not_or] at h
  simp [sendXON, h.1, h.2]

theorem sendXOFF_spec (t : MTerm) (hb : flowBound t)
    (hp : (t.serial_port && t.serial_is_open) = true → t.port_xoff = false) :
    sendXOFF t = { t with out := t.out ++ [0x13], xoff_sent := true,
                          xoff_sent_count := t.xoff_sent_count + 1,
                          port_xoff :=
                            (t.serial_port && t.serial_is_open) || t.port_xoff } := by
  rcases hb with h | h
  · simp [sendXOFF, h, hp h]
  · by_cases hs : (t.serial_port && t.serial_is_open) = true
    · simp [sendXOFF, hs, hp hs]
    · have hf : (t.serial_port && t.serial_is_open) = false := by
        simpa using hs
      simp [sendXOFF, hf, h]

theorem sendXON_spec (t : MTerm) (hb : flowBound t)
    (hp : (t.serial_port && t.serial_is_open) = true → t.port_xoff = true) :
    sendXON t = { t with out := t.out ++ [0x11], xoff_sent := false,
                         xon_sent_count := t.xon_sent_count + 1,
                         port_xoff :=
                           !(t.serial_port && t.serial_is_open) && t.port_xoff } := by
  rcases hb with h | h
  · simp [sendXON, h, hp h]
  · by_cases hs : (t.serial_port && t.serial_is_open) = true
    · simp [sendXON, hs, hp hs]
    · have hf : (t.serial_port && t.serial_is_open) = false := by
        simpa using hs
      simp [sendXON, hf, h]

/-! ### queueRxByte single-step characterizations -/

theorem queueRxByteCore_low (t : MTerm) (b : Nat)
    (hlen : t.rx_fifo.length < RX_FIFO_MAX)
    (hth : t.rx_fifo.length + 1 < RX_FIFO_XOFF_THRESHOLD ∨ t.xoff_sent = true) :
    queueRxByteCore t b = { t with rx_fifo := t.rx_fifo ++ [b] } := by
  have hno : ¬ RX_FIFO_MAX ≤ t.rx_fifo.length := by omega
  simp only [queueRxByteCore, if_neg hno]
  split
  · next h =>
    exfalso
    have h1 : RX_FIFO_XOFF_THRESHOLD ≤ (t.rx_fifo ++ [b]).length := h.1
    have h2 : t.xoff_sent = false := h.2
    simp only [List.length_append, List.length_cons, List.length_nil] at h1
    rcases hth with hlt | hx
    · omega
    · rw [hx] at h2
      cases h2
  · rfl

theorem queueRxByteCore_trigger (t : MTerm) (b : Nat)
    (hlen : t.rx_fifo.length < RX_FIFO_MAX)
    (hth : RX_FIFO_XOFF_THRESHOLD ≤ t.rx_fifo.length + 1)
    (hx : t.xoff_sent = false) :
    queueRxByteCore t b = sendXOFF { t with rx_fifo := t.rx_fifo ++ [b] } := by
  have hno : ¬ RX_FIFO_MAX ≤ t.rx_fifo.length := by omega
  simp only [queueRxByteCore, if_neg hno]
  split
  · rfl
  · next h =>
    exfalso
    apply h
    constructor
    · show RX_FIFO_XOFF_THRESHOLD ≤ (t.rx_fifo ++ [b]).length
      simp only [List.length_append, List.length_cons, List.length_nil]
      omega
    · exact hx

theorem queueRxByteT_fifo_drops (t : MTerm) (b : Nat)
    (hb : ¬(b = 0x11 ∨ b = 0x13)) :
    (queueRxByteT t b).rx_fifo =
      (if RX_FIFO_MAX ≤ t.rx_fifo.length then t.rx_fifo.tail else t.rx_fifo) ++ [b] ∧
    (queueRxByteT t b).rx_overrun_drops =
      t.rx_overrun_drops + (if RX_FIFO_MAX ≤ t.rx_fifo.length then 1 else 0) := by
  simp only [queueRxByteT, if_neg hb, queueRxByteCore]
  split
  · split
    · simp [sendXOFF_rx_fifo, sendXOFF_drops]
    · simp
  · split
    · simp [sendXOFF_rx_fifo, sendXOFF_drops]
    · simp

theorem pushSeqT_nil (t : MTerm) : pushSeqT t [] = t := rfl

theorem pushSeqT_cons (t : MTerm) (a : Nat) (l : List Nat) :
    pushSeqT t (a :: l) = pushSeqT (queueRxByteT t a) l := rfl

/-- Heart of claim C3: pushing a list of non-flow-control bytes one at a time
keeps the last RX_FIFO_MAX of the combined contents and counts one overrun
drop per evicted byte. -/
theorem pushSeqT_fifo_drops (data : List Nat) : ∀ t : MTerm,
    (∀ b ∈ data, ¬(b = 0x11 ∨ b = 0x13)) →
    t.rx_fifo.length ≤ RX_FIFO_MAX →
    (pushSeqT t data).rx_fifo =
      (t.rx_fifo ++ data).drop (t.rx_fifo.length + data.length - RX_FIFO_MAX) ∧
    (pushSeqT t data).rx_overrun_drops =
      t.rx_overrun_drops + (t.rx_fifo.length + data.length - RX_FIFO_MAX) := by
  induction data with
  | nil =>
    intro t _ hlen
    have h0 : t.rx_fifo.length - RX_FIFO_MAX = 0 := by omega
    constructor
    · simp [pushSeqT_nil, h0]
    · simp [pushSeqT_nil, h0]
  | cons a rest ih =>
    intro t hdata hlen
    have ha : ¬(a = 0x11 ∨ a = 0x13) := hdata a (by simp)
    have hrest : ∀ b ∈ rest, ¬(b = 0x11 ∨ b = 0x13) :=
      fun b hb => hdata b (by simp [hb])
    rw [pushSeqT_cons]
    obtain ⟨hf, hd⟩ := queueRxByteT_fifo_drops t a ha
    by_cases hc : RX_FIFO_MAX ≤ t.rx_fifo.length
    · rw [if_pos hc] at hf hd
      have hM : RX_FIFO_MAX = 2048 := RX_FIFO_MAX_eq
      have hlen2048 : t.rx_fifo.length = 2048 := by omega
      have hne : t.rx_fifo ≠ [] := by
        intro h
        rw [h] at hlen2048
        simp at hlen2048
      obtain ⟨x, xs, hxs⟩ := List.exists_cons_of_ne_nil hne
      have hxlen : xs.length = 2047 := by
        have h := hlen2048
        rw [hxs] at h
        simp only [List.length_cons] at h
        omega
      have htail : t.rx_fifo.tail = xs := by rw [hxs]; rfl
      rw [htail] at hf
      have hlen1 : (queueRxByteT t a).rx_fifo.length ≤ RX_FIFO_MAX := by
        rw [hf]
        simp only [List.length_append, List.length_cons, List.length_nil]
        omega
      obtain ⟨ihf, ihd⟩ := ih (queueRxByteT t a) hrest hlen1
      rw [hf] at ihf
      rw [hf, hd] at ihd
      simp only [List.length_append, List.length_cons, List.length_nil] at ihf ihd
      constructor
      · rw [ihf, hxs]
        simp only [List.length_cons, List.cons_append]
        have hi1 : xs.length + (0 + 1) + rest.length - RX_FIFO_MAX = rest.length := by
          omega
        have hi2 : xs.length + 1 + (rest.length + 1) - RX_FIFO_MAX =
            rest.length + 1 := by omega
        rw [hi1, hi2, List.drop_succ_cons, List.append_assoc,
          List.singleton_append]
      · rw [ihd, hxs]
        simp only [List.length_cons]
        omega
    · rw [if_neg hc] at hf hd
      have hlen1 : (queueRxByteT t a).rx_fifo.length ≤ RX_FIFO_MAX := by
        rw [hf]
        simp only [List.length_append, List.length_cons, List.length_nil]
        omega
      obtain ⟨ihf, ihd⟩ := ih (queueRxByteT t a) hrest hlen1
      rw [hf] at ihf
      rw [hf, hd] at ihd
      simp only [List.length_append, List.length_cons, List.length_nil] at ihf ihd
      constructor
      · rw [ihf]
        have hi : t.rx_fifo.length + (0 + 1) + rest.length - RX_FIFO_MAX =
            t.rx_fifo.length + (rest.length + 1) - RX_FIFO_MAX := by omega
        rw [hi, List.append_assoc, List.singleton_append]
        simp only [List.length_cons]
      · rw [ihd]
        simp only [List.length_cons]
        omega

/-! ### Flow-control phase lemmas (claim C4) -/

/-- Pushing non-flow-control bytes that stay strictly below the XOFF
watermark only appends to the FIFO. -/
theorem pushSeqT_low (data : List Nat) : ∀ t : MTerm,
    (∀ b ∈ data, ¬(b = 0x11 ∨ b = 0x13)) →
    t.xoff_sent = false →
    t.rx_fifo.length + data.length < RX_FIFO_XOFF_THRESHOLD →
    pushSeqT t data = { t with rx_fifo := t.rx_fifo ++ data } := by
  induction data with
  | nil =>
    intro t _ _ _
    rw [pushSeqT_nil]
    simp
  | cons a rest ih =>
    intro t hdata hx hth
    have hTH : RX_FIFO_XOFF_THRESHOLD = 1536 := XOFF_TH_eq
    have hM : RX_FIFO_MAX = 2048 := RX_FIFO_MAX_eq
    have ha : ¬(a = 0x11 ∨ a = 0x13) := hdata a (by simp)
    have hrest : ∀ b ∈ rest, ¬(b = 0x11 ∨ b = 0x13) :=
      fun b hb => hdata b (by simp [hb])
    rw [pushSeqT_cons, queueRxByteT, if_neg ha,
      queueRxByteCore_low t a (by simp only [List.length_cons] at hth; omega)
        (Or.inl (by simp only [List.length_cons] at hth; omega))]
    rw [ih { t with rx_fifo := t.rx_fifo ++ [a] } hrest hx
      (by simp only [List.length_append, List.length_cons, List.length_nil]
          simp only [List.length_cons] at hth
          omega)]
    simp [List.append_assoc]

/-- Once XOFF is outstanding, further non-flow-control pushes that fit in the
FIFO only append to it. -/
theorem pushSeqT_after_xoff (data : List Nat) : ∀ t : MTerm,
    (∀ b ∈ data, ¬(b = 0x11 ∨ b = 0x13)) →
    t.xoff_sent = true →
    t.rx_fifo.length + data.length ≤ RX_FIFO_MAX →
    pushSeqT t data = { t with rx_fifo := t.rx_fifo ++ data } := by
  induction data with
  | nil =>
    intro t _ _ _
    rw [pushSeqT_nil]
    simp
  | cons a rest ih =>
    intro t hdata hx hth
    have ha : ¬(a = 0x11 ∨ a = 0x13) := hdata a (by simp)
    have hrest : ∀ b ∈ rest, ¬(b = 0x11 ∨ b = 0x13) :=
      fun b hb => hdata b (by simp [hb])
    rw [pushSeqT_cons, queueRxByteT, if_neg ha,
      queueRxByteCore_low t a (by simp only [List.length_cons] at hth; omega)
        (Or.inr hx)]
    rw [ih { t with rx_fifo := t.rx_fifo ++ [a] } hrest hx
      (by simp only [List.length_append, List.length_cons, List.length_nil]
          simp only [List.length_cons] at hth
          omega)]
    simp [List.append_assoc]

/-- Pushing a non-flow-control sequence that crosses the XOFF watermark (and
fits in the FIFO) from a quiescent flow-control state appends the bytes,
emits exactly one XOFF on the outbound path, sets xoff_sent, and counts one
XOFF. -/
theorem pushSeqT_cross (data : List Nat) : ∀ t : MTerm,
    (∀ b ∈ data, ¬(b = 0x11 ∨ b = 0x13)) →
    flowBound t →
    ((t.serial_port && t.serial_is_open) = true → t.port_xoff = false) →
    t.xoff_sent = false →
    t.rx_fifo.length < RX_FIFO_XOFF_THRESHOLD →
    RX_FIFO_XOFF_THRESHOLD ≤ t.rx_fifo.length + data.length →
    t.rx_fifo.length + data.length ≤ RX_FIFO_MAX →
    pushSeqT t data =
      { t with rx_fifo := t.rx_fifo ++ data,
               xoff_sent := true,
               xoff_sent_count := t.xoff_sent_count + 1,
               out := t.out ++ [0x13],
               port_xoff := (t.serial_port && t.serial_is_open) || t.port_xoff } := by
  induction data with
  | nil =>
    intro t _ _ _ _ hlow hcross _
    exfalso
    simp only [List.length_nil] at hcross
    omega
  | cons a rest ih =>
    intro t hdata hb hp hx hlow hcross hfit
    have hTH : RX_FIFO_XOFF_THRESHOLD = 1536 := XOFF_TH_eq
    have hM : RX_FIFO_MAX = 2048 := RX_FIFO_MAX_eq
    have ha : ¬(a = 0x11 ∨ a = 0x13) := hdata a (by simp)
    have hrest : ∀ b ∈ rest, ¬(b = 0x11 ∨ b = 0x13) :=
      fun b hb => hdata b (by simp [hb])
    simp only [List.length_cons] at hcross hfit
    by_cases htrig : RX_FIFO_XOFF_THRESHOLD ≤ t.rx_fifo.length + 1
    · rw [pushSeqT_cons, queueRxByteT, if_neg ha,
        queueRxByteCore_trigger t a (by omega) htrig hx]
      rw [sendXOFF_spec { t with rx_fifo := t.rx_fifo ++ [a] } hb hp]
      rw [pushSeqT_after_xoff rest _ hrest rfl
        (by simp only [List.length_append, List.length_cons, List.length_nil]
            omega)]
      simp [List.append_assoc]
    · rw [pushSeqT_cons, queueRxByteT, if_neg ha,
        queueRxByteCore_low t a (by omega) (Or.inl (by omega))]
      rw [ih { t with rx_fifo := t.rx_fifo ++ [a] } hrest hb hp hx
        (by simp only [List.length_append, List.length_cons, List.length_nil]
            omega)
        (by simp only [List.length_append, List.length_cons, List.length_nil]
            omega)
        (by simp only [List.length_append, List.length_cons, List.length_nil]
            omega)]
      simp [List.append_assoc]

theorem drainT_zero (t : MTerm) : drainT t 0 = t := rfl

theorem drainT_succ (t : MTerm) (k : Nat) :
    drainT t (k + 1) = drainT (uartDataReadT t).2 k := rfl

theorem drainT_add (m n : Nat) : ∀ t : MTerm,
    drainT t (m + n) = drainT (drainT t m) n := by
  induction m with
  | zero =>
    intro t
    rw [Nat.zero_add]
    rfl
  | succ m ih =>
    intro t
    have h : m + 1 + n = (m + n) + 1 := by omega
    rw [h, drainT_succ, drainT_succ, ih]

/-- Draining while the FIFO stays strictly above the XON watermark pops
bytes without emitting any flow control. -/
theorem drainT_high (k : Nat) : ∀ t : MTerm,
    t.xoff_sent = true →
    k ≤ t.rx_fifo.length →
    RX_FIFO_XON_THRESHOLD < t.rx_fifo.length - k →
    drainT t k = { t with rx_fifo := t.rx_fifo.drop k } := by
  induction k with
  | zero =>
    intro t _ _ _
    rw [drainT_zero]
    simp
  | succ k ih =>
    intro t hx hk hxon
    have hXON : RX_FIFO_XON_THRESHOLD = 512 := XON_TH_eq
    have hTH : RX_FIFO_XOFF_THRESHOLD = 1536 := XOFF_TH_eq
    have hne : t.rx_fifo ≠ [] := by
      intro h
      rw [h] at hk
      simp at hk
    obtain ⟨x, xs, hxs⟩ := List.exists_cons_of_ne_nil hne
    have hxslen : xs.length = t.rx_fifo.length - 1 := by
      rw [hxs]; simp
    have hstep : (uartDataReadT t).2 = { t with rx_fifo := xs } := by
      have h1 : ¬ (RX_FIFO_XOFF_THRESHOLD ≤
          ({ t with rx_fifo := xs } : MTerm).rx_fifo.length ∧
          ({ t with rx_fifo := xs } : MTerm).xoff_sent = false) := by
        rintro ⟨-, h2⟩
        have h2b : t.xoff_sent = false := h2
        rw [hx] at h2b
        cases h2b
      have h2 : ¬ (({ t with rx_fifo := xs } : MTerm).rx_fifo.length ≤
          RX_FIFO_XON_THRESHOLD ∧
          ({ t with rx_fifo := xs } : MTerm).xoff_sent = true) := by
        rintro ⟨h1b, -⟩
        have h1c : xs.length ≤ RX_FIFO_XON_THRESHOLD := h1b
        omega
      simp only [uartDataReadT, hxs]
      exact checkFlow_noop _ h1 h2
    rw [drainT_succ, hstep]
    rw [ih { t with rx_fifo := xs } hx
      (by have : xs.length = t.rx_fifo.length - 1 := by rw [hxs]; simp
          simp only [this]
          omega)
      (by have : xs.length = t.rx_fifo.length - 1 := by rw [hxs]; simp
          simp only [this]
          omega)]
    rw [hxs, List.drop_succ_cons]

/-- The read that brings the FIFO down to the XON watermark while XOFF is
outstanding emits exactly one XON on the outbound path, clears xoff_sent,
and counts one XON. -/
theorem drainT_cross (t : MTerm)
    (hx : t.xoff_sent = true)
    (hb : flowBound t)
    (hp : (t.serial_port && t.serial_is_open) = true → t.port_xoff = true)
    (hlen : t.rx_fifo.length = RX_FIFO_XON_THRESHOLD + 1) :
    drainT t 1 = { t with rx_fifo := t.rx_fifo.tail,
                          xoff_sent := false,
                          xon_sent_count := t.xon_sent_count + 1,
                          out := t.out ++ [0x11],
                          port_xoff :=
                            !(t.serial_port && t.serial_is_open) && t.port_xoff } := by
  have hXON : RX_FIFO_XON_THRESHOLD = 512 := XON_TH_eq
  have hTH : RX_FIFO_XOFF_THRESHOLD = 1536 := XOFF_TH_eq
  have hne : t.rx_fifo ≠ [] := by
    intro h
    rw [h] at hlen
    simp only [List.length_nil] at hlen
    omega
  obtain ⟨x, xs, hxs⟩ := List.exists_cons_of_ne_nil hne
  have hxslen : xs.length = RX_FIFO_XON_THRESHOLD := by
    have h := hlen
    rw [hxs] at h
    simp only [List.length_cons] at h
    omega
  have h1 : ¬ (RX_FIFO_XOFF_THRESHOLD ≤
      ({ t with rx_fifo := xs } : MTerm).rx_fifo.length ∧
      ({ t with rx_fifo := xs } : MTerm).xoff_sent = false) := by
    rintro ⟨h1b, -⟩
    have h1c : RX_FIFO_XOFF_THRESHOLD ≤ xs.length := h1b
    omega
  have h2 : ({ t with rx_fifo := xs } : MTerm).rx_fifo.length ≤
      RX_FIFO_XON_THRESHOLD := by
    show xs.length ≤ RX_FIFO_XON_THRESHOLD
    omega
  have h3 : ({ t with rx_fifo := xs } : MTerm).xoff_sent = true := hx
  rw [drainT_succ, drainT_zero]
  simp only [uartDataReadT, hxs]
  rw [checkFlow_xon _ h1 h2 h3]
  rw [sendXON_spec { t with rx_fifo := xs } hb hp]
  simp

/-! ### Card-level frame and projection lemmas -/

theorem updateInterrupt_terms (s : MuxState) :
    (updateInterrupt s).terms = s.terms := rfl

theorem modifyTerm_terms (s : MuxState) (n : Nat) (f : MTerm → MTerm) :
    (modifyTerm s n f).terms = s.terms.set n (f (s.terms.getD n default)) := rfl

theorem modifyTerm_terms_length (s : MuxState) (n : Nat) (f : MTerm → MTerm) :
    (modifyTerm s n f).terms.length = s.terms.length := by
  rw [modifyTerm_terms, List.length_set]

theorem modifyTerm_getD_self (s : MuxState) (n : Nat) (f : MTerm → MTerm)
    (h : n < s.terms.length) :
    (modifyTerm s n f).terms.getD n default = f (s.terms.getD n default) := by
  rw [modifyTerm_terms]
  exact getD_set_self _ _ _ h

theorem modifyTerm_getD_ne (s : MuxState) {n m : Nat} (f : MTerm → MTerm)
    (h : n ≠ m) :
    (modifyTerm s n f).terms.getD m default = s.terms.getD m default := by
  rw [modifyTerm_terms]
  exact getD_set_ne _ _ h

theorem queueRxByte_terms_length (s : MuxState) (n b : Nat) :
    (queueRxByte s n b).terms.length = s.terms.length := by
  by_cases hb : b = 0x11 ∨ b = 0x13
  · simp only [queueRxByte, if_pos hb]
  · simp only [queueRxByte, if_neg hb, updateInterrupt_terms]
    exact modifyTerm_terms_length _ _ _

theorem queueRxByte_num_terms (s : MuxState) (n b : Nat) :
    (queueRxByte s n b).num_terms = s.num_terms := by
  by_cases hb : b = 0x11 ∨ b = 0x13
  · simp only [queueRxByte, if_pos hb]
  · simp only [queueRxByte, if_neg hb]
    rfl

theorem queueRxByte_uart_sel (s : MuxState) (n b : Nat) :
    (queueRxByte s n b).uart_sel = s.uart_sel := by
  by_cases hb : b = 0x11 ∨ b = 0x13
  · simp only [queueRxByte, if_pos hb]
  · simp only [queueRxByte, if_neg hb]
    rfl

theorem queueRxByte_getD_self (s : MuxState) (n b : Nat)
    (h : n < s.terms.length) :
    (queueRxByte s n b).terms.getD n default =
      queueRxByteT (s.terms.getD n default) b := by
  by_cases hb : b = 0x11 ∨ b = 0x13
  · simp only [queueRxByte, queueRxByteT, if_pos hb]
  · simp only [queueRxByte, queueRxByteT, if_neg hb, updateInterrupt_terms]
    exact modifyTerm_getD_self _ _ _ h

theorem queueRxByte_getD_ne (s : MuxState) {n m : Nat} (b : Nat) (h : n ≠ m) :
    (queueRxByte s n b).terms.getD m default = s.terms.getD m default := by
  by_cases hb : b = 0x11 ∨ b = 0x13
  · simp only [queueRxByte, if_pos hb]
  · simp only [queueRxByte, if_neg hb, updateInterrupt_terms]
    exact modifyTerm_getD_ne _ _ h

theorem pushSeq_nil (s : MuxState) (n : Nat) : pushSeq s n [] = s := rfl

theorem pushSeq_cons (s : MuxState) (n a : Nat) (l : List Nat) :
    pushSeq s n (a :: l) = pushSeq (queueRxByte s n a) n l := rfl

theorem pushSeq_terms_length (data : List Nat) : ∀ (s : MuxState) (n : Nat),
    (pushSeq s n data).terms.length = s.terms.length := by
  induction data with
  | nil => intro s n; rfl
  | cons a l ih =>
    intro s n
    rw [pushSeq_cons, ih, queueRxByte_terms_length]

theorem pushSeq_num_terms (data : List Nat) : ∀ (s : MuxState) (n : Nat),
    (pushSeq s n data).num_terms = s.num_terms := by
  induction data with
  | nil => intro s n; rfl
  | cons a l ih =>
    intro s n
    rw [pushSeq_cons, ih, queueRxByte_num_terms]

theorem pushSeq_uart_sel (data : List Nat) : ∀ (s : MuxState) (n : Nat),
    (pushSeq s n data).uart_sel = s.uart_sel := by
  induction data with
  | nil => intro s n; rfl
  | cons a l ih =>
    intro s n
    rw [pushSeq_cons, ih, queueRxByte_uart_sel]

theorem pushSeq_getD_self (data : List Nat) : ∀ (s : MuxState) (n : Nat),
    n < s.terms.length →
    (pushSeq s n data).terms.getD n default =
      pushSeqT (s.terms.getD n default) data := by
  induction data with
  | nil => intro s n _; rfl
  | cons a l ih =>
    intro s n h
    rw [pushSeq_cons, pushSeqT_cons,
      ih (queueRxByte s n a) n (by rw [queueRxByte_terms_length]; exact h),
      queueRxByte_getD_self s n a h]

theorem pushSeq_getD_ne (data : List Nat) : ∀ (s : MuxState) {n m : Nat},
    n ≠ m →
    (pushSeq s n data).terms.getD m default = s.terms.getD m default := by
  induction data with
  | nil => intro s n m _; rfl
  | cons a l ih =>
    intro s n m h
    rw [pushSeq_cons, ih (queueRxByte s n a) h, queueRxByte_getD_ne s a h]

theorem uartDataRead_uart_sel (s : MuxState) :
    ((uartDataRead s).2).uart_sel = s.uart_sel := by
  cases hf : (s.terms.getD s.uart_sel default).rx_fifo with
  | nil =>
    simp only [uartDataRead, hf]
    rfl
  | cons b rest =>
    simp only [uartDataRead, hf]
    rfl

theorem uartDataRead_num_terms (s : MuxState) :
    ((uartDataRead s).2).num_terms = s.num_terms := by
  cases hf : (s.terms.getD s.uart_sel default).rx_fifo with
  | nil =>
    simp only [uartDataRead, hf]
    rfl
  | cons b rest =>
    simp only [uartDataRead, hf]
    rfl

theorem uartDataRead_terms_length (s : MuxState) :
    ((uartDataRead s).2).terms.length = s.terms.length := by
  cases hf : (s.terms.getD s.uart_sel default).rx_fifo with
  | nil =>
    simp only [uartDataRead, hf]
    rfl
  | cons b rest =>
    simp only [uartDataRead, hf]
    show (s.terms.set s.uart_sel _).length = s.terms.length
    rw [List.length_set]

theorem uartDataRead_getD_self (s : MuxState)
    (h : s.uart_sel < s.terms.length) :
    ((uartDataRead s).2).terms.getD s.uart_sel default =
      (uartDataReadT (s.terms.getD s.uart_sel default)).2 := by
  cases hf : (s.terms.getD s.uart_sel default).rx_fifo with
  | nil =>
    simp only [uartDataRead, uartDataReadT, hf]
    rfl
  | cons b rest =>
    simp only [uartDataRead, uartDataReadT, hf]
    show (s.terms.set s.uart_sel _).getD s.uart_sel default = _
    rw [getD_set_self _ _ _ h]

theorem drainCard_zero (s : MuxState) : drainCard s 0 = s := rfl

theorem drainCard_succ (s : MuxState) (k : Nat) :
    drainCard s (k + 1) = drainCard (uartDataRead s).2 k := rfl

theorem drainCard_spec (k : Nat) : ∀ s : MuxState,
    s.uart_sel < s.terms.length →
    (drainCard s k).terms.getD s.uart_sel default =
      drainT (s.terms.getD s.uart_sel default) k ∧
    (drainCard s k).uart_sel = s.uart_sel ∧
    (drainCard s k).terms.length = s.terms.length := by
  induction k with
  | zero => intro s _; exact ⟨rfl, rfl, rfl⟩
  | succ k ih =>
    intro s h
    have hsel := uartDataRead_uart_sel s
    have hlen := uartDataRead_terms_length s
    have h1 : ((uartDataRead s).2).uart_sel < ((uartDataRead s).2).terms.length := by
      rw [hsel, hlen]; exact h
    obtain ⟨ihg, ihs, ihl⟩ := ih (uartDataRead s).2 h1
    rw [hsel] at ihg
    rw [drainCard_succ, drainT_succ]
    refine ⟨?_, ?_, ?_⟩
    · rw [ihg]
      congr 1
      exact uartDataRead_getD_self s h
    · rw [ihs, hsel]
    · rw [ihl, hlen]


/-! ### Interrupt invariant lemmas -/

theorem interruptInv_updateInterrupt (s : MuxState) :
    interruptInv (updateInterrupt s) := rfl

theorem interruptInv_queueRxByte (s : MuxState) (n b : Nat)
    (h : interruptInv s) : interruptInv (queueRxByte s n b) := by
  by_cases hb : b = 0x11 ∨ b = 0x13
  · simp only [queueRxByte, if_pos hb]
    exact h
  · simp only [queueRxByte, if_neg hb]
    exact interruptInv_updateInterrupt _

theorem interruptInv_queueRxByte_nonfc (s : MuxState) (n b : Nat)
    (hb : ¬(b = 0x11 ∨ b = 0x13)) : interruptInv (queueRxByte s n b) := by
  simp only [queueRxByte, if_neg hb]
  exact interruptInv_updateInterrupt _

theorem interruptInv_queueRxBytes (s : MuxState) (n : Nat) (data : List Nat)
    (h : interruptInv s) : interruptInv (queueRxBytes s n data) := by
  by_cases hd : data.length = 0
  · simp only [queueRxBytes, if_pos hd]
    exact h
  · simp only [queueRxBytes, if_neg hd]
    exact interruptInv_updateInterrupt _

theorem interruptInv_queueRxBytes_ne (s : MuxState) (n : Nat) (data : List Nat)
    (hd : data.length ≠ 0) : interruptInv (queueRxBytes s n data) := by
  simp only [queueRxBytes, if_neg hd]
  exact interruptInv_updateInterrupt _

theorem interruptInv_uartDataRead (s : MuxState) :
    interruptInv (uartDataRead s).2 := by
  cases hf : (s.terms.getD s.uart_sel default).rx_fifo with
  | nil =>
    simp only [uartDataRead, hf]
    exact interruptInv_updateInterrupt _
  | cons b rest =>
    simp only [uartDataRead, hf]
    exact interruptInv_updateInterrupt _

theorem interruptInv_receiveKeystroke (s : MuxState) (n k : Nat)
    (h : interruptInv s) : interruptInv (receiveKeystroke s n k) := by
  by_cases hs : (s.terms.getD n default).serial_port = true
  · simp only [receiveKeystroke, if_pos hs]
    exact h
  · simp only [receiveKeystroke, if_neg hs]
    exact interruptInv_queueRxByte _ _ _ h

theorem updateInterruptB_modifyTerm (s : MuxState) (n : Nat) (f : MTerm → MTerm)
    (hf : ∀ t, (f t).rx_fifo = t.rx_fifo) :
    updateInterruptB (modifyTerm s n f) = updateInterruptB s := by
  show (List.range s.num_terms).any
      (fun i => !((modifyTerm s n f).terms.getD i default).rx_fifo.isEmpty) =
    (List.range s.num_terms).any
      (fun i => !(s.terms.getD i default).rx_fifo.isEmpty)
  apply congrArg
  funext i
  by_cases hin : n < s.terms.length
  · by_cases hni : n = i
    · subst hni
      rw [modifyTerm_getD_self s n f hin, hf]
    · rw [modifyTerm_getD_ne s f hni]
  · rw [modifyTerm_terms, List.set_eq_of_length_le (by omega)]

theorem interruptInv_modifyTerm (s : MuxState) (n : Nat) (f : MTerm → MTerm)
    (hf : ∀ t, (f t).rx_fifo = t.rx_fifo) (h : interruptInv s) :
    interruptInv (modifyTerm s n f) := by
  show (modifyTerm s n f).interrupt_pending = updateInterruptB (modifyTerm s n f)
  rw [updateInterruptB_modifyTerm s n f hf]
  exact h

theorem interruptInv_serialRxByte (s : MuxState) (n b : Nat)
    (h : interruptInv s) : interruptInv (serialRxByte s n b) := by
  have h1 := interruptInv_queueRxByte s n b h
  simp only [serialRxByte]
  split
  · exact interruptInv_modifyTerm _ _ _ checkFlow_rx_fifo h1
  · exact h1

/-- Two card states with the same channel count and pointwise-equal RX FIFOs
compute the same interrupt line. -/
theorem updateInterruptB_congr (s1 s2 : MuxState)
    (hn : s1.num_terms = s2.num_terms)
    (hf : ∀ i, (s1.terms.getD i default).rx_fifo =
               (s2.terms.getD i default).rx_fifo) :
    updateInterruptB s1 = updateInterruptB s2 := by
  unfold updateInterruptB
  rw [hn]
  apply congrArg
  funext i
  rw [hf i]

/-! ### Batch insert lemmas -/

theorem queueRxBytesCore_fit (t : MTerm) (data : List Nat)
    (hne : data.length ≠ 0)
    (hfit : t.rx_fifo.length + data.length ≤ RX_FIFO_MAX) :
    queueRxBytesCore t data = { t with rx_fifo := t.rx_fifo ++ data } := by
  have hM : RX_FIFO_MAX = 2048 := RX_FIFO_MAX_eq
  have hlt : t.rx_fifo.length < RX_FIFO_MAX := by omega
  have hzero : ¬ (RX_FIFO_MAX - t.rx_fifo.length = 0) := by omega
  have haddN : min data.length (RX_FIFO_MAX - t.rx_fifo.length) =
      data.length := by omega
  simp only [queueRxBytesCore, if_pos hlt, if_neg hzero, haddN,
    List.take_length]
  rw [if_neg (lt_irrefl data.length)]

theorem queueRxBytes_terms_length (s : MuxState) (n : Nat) (data : List Nat) :
    (queueRxBytes s n data).terms.length = s.terms.length := by
  by_cases hd : data.length = 0
  · simp only [queueRxBytes, if_pos hd]
  · simp only [queueRxBytes, if_neg hd, updateInterrupt_terms]
    exact modifyTerm_terms_length _ _ _

theorem queueRxBytes_num_terms (s : MuxState) (n : Nat) (data : List Nat) :
    (queueRxBytes s n data).num_terms = s.num_terms := by
  by_cases hd : data.length = 0
  · simp only [queueRxBytes, if_pos hd]
  · simp only [queueRxBytes, if_neg hd]
    rfl

theorem queueRxBytes_getD_self (s : MuxState) (n : Nat) (data : List Nat)
    (h : n < s.terms.length) (hd : data.length ≠ 0) :
    (queueRxBytes s n data).terms.getD n default =
      queueRxBytesCore (s.terms.getD n default) data := by
  simp only [queueRxBytes, if_neg hd, updateInterrupt_terms]
  exact modifyTerm_getD_self _ _ _ h

theorem queueRxBytes_getD_ne (s : MuxState) {n m : Nat} (data : List Nat)
    (h : n ≠ m) :
    (queueRxBytes s n data).terms.getD m default =
      s.terms.getD m default := by
  by_cases hd : data.length = 0
  · simp only [queueRxBytes, if_pos hd]
  · simp only [queueRxBytes, if_neg hd, updateInterrupt_terms]
    exact modifyTerm_getD_ne _ _ h


/-! ### Flow-control byte exclusion lemmas (claim C1) -/

theorem queueRxByteT_fc_not_mem (t : MTerm) (b x : Nat)
    (hx : x = 0x11 ∨ x = 0x13) (hmem : x ∉ t.rx_fifo) :
    x ∉ (queueRxByteT t b).rx_fifo := by
  by_cases hb : b = 0x11 ∨ b = 0x13
  · simp only [queueRxByteT, if_pos hb]
    exact hmem
  · obtain ⟨hf, -⟩ := queueRxByteT_fifo_drops t b hb
    intro hin
    rw [hf] at hin
    rcases List.mem_append.mp hin with h | h
    · apply hmem
      by_cases hc : RX_FIFO_MAX ≤ t.rx_fifo.length
      · rw [if_pos hc] at h
        exact List.mem_of_mem_tail h
      · rw [if_neg hc] at h
        exact h
    · simp only [List.mem_singleton] at h
      subst h
      exact hb hx

theorem queueRxByte_terms_oob (s : MuxState) (n b : Nat)
    (h : s.terms.length ≤ n) : (queueRxByte s n b).terms = s.terms := by
  by_cases hb : b = 0x11 ∨ b = 0x13
  · simp only [queueRxByte, if_pos hb]
  · simp only [queueRxByte, if_neg hb, updateInterrupt_terms, modifyTerm_terms]
    exact List.set_eq_of_length_le h

theorem serialRxByte_getD_fifo (s : MuxState) (n b m : Nat) :
    ((serialRxByte s n b).terms.getD m default).rx_fifo =
      ((queueRxByte s n b).terms.getD m default).rx_fifo := by
  simp only [serialRxByte]
  split
  · by_cases hnm : n = m
    · subst hnm
      by_cases hlt : n < (queueRxByte s n b).terms.length
      · rw [modifyTerm_getD_self _ _ _ hlt, checkFlow_rx_fifo]
      · rw [modifyTerm_terms, List.set_eq_of_length_le (by omega)]
    · rw [modifyTerm_getD_ne _ _ hnm]
  · rfl

/-! ### Sequential push establishes the interrupt invariant -/

theorem pushSeq_concat (s : MuxState) (n b : Nat) (l : List Nat) :
    pushSeq s n (l ++ [b]) = queueRxByte (pushSeq s n l) n b := by
  simp only [pushSeq, List.foldl_append, List.foldl_cons, List.foldl_nil]

theorem interruptInv_pushSeq (data : List Nat) (s : MuxState) (n : Nat)
    (hne : data ≠ [])
    (hFC : ∀ b ∈ data, ¬(b = 0x11 ∨ b = 0x13)) :
    interruptInv (pushSeq s n data) := by
  rcases List.eq_nil_or_concat data with h | ⟨l, b, hlb⟩
  · exact absurd h hne
  · subst hlb
    rw [List.concat_eq_append, pushSeq_concat]
    exact interruptInv_queueRxByte_nonfc _ _ _
      (hFC b (by simp [List.concat_eq_append]))

/-! ### Ready/busy and reconnect arithmetic bridges -/

theorem and_one_ne_zero_eq_testBit (x k : Nat) :
    decide ((x >>> k) &&& 1 ≠ 0) = x.testBit k := by
  rw [Nat.testBit_to_div_mod]
  rw [decide_eq_decide]
  rw [Nat.and_one_is_mod, Nat.shiftRight_eq_div_pow]
  omega

theorem getReconnectDelayMs_formula (n : Nat) :
    getReconnectDelayMs n = min 10000 (250 * 2 ^ min n 5) := by
  show min (BASE_RECONNECT_DELAY_MS * (1 <<< min n 5)) 10000 = _
  rw [Nat.shiftLeft_eq, one_mul, Nat.min_comm]
  rfl

/-! ### Witness fixtures -/

/-- Freshly constructed channel bound to an open serial port. -/
def termW : MTerm := { MTerm.init with serial_port := true, serial_is_open := true }

/-- Card with one freshly constructed unbound channel. -/
def muxW : MuxState :=
  { terms := [MTerm.init], num_terms := 1, uart_sel := 0,
    interrupt_pending := false, selected := false, cpb := true, io_offset := 0,
    prime_seen := true, obs_seen := false, cbs_seen := false,
    obscbs_offset := 0, obscbs_data := 0, rbi := 0xff }

/-- Card with one freshly constructed serial-bound channel. -/
def muxW2 : MuxState := { muxW with terms := [termW] }


/-! ### Claim theorems -/

/-- C7: whenever the card is selected and io_offset is nonzero, the
ready/busy refresh computes busy = ((obs_seen || cbs_seen) and io_offset >= 4)
or (bit (io_offset - 1) of rbi is set) and drives the host's device-ready
line with the negation of busy; when io_offset is zero or the card is not
selected, the line is not driven. -/
theorem C7_theorem (s : MuxState) :
    (s.selected = true → s.io_offset ≠ 0 →
      updateRbi s = some (!(((s.obs_seen || s.cbs_seen) &&
        decide (4 ≤ s.io_offset)) || s.rbi.testBit (s.io_offset - 1)))) ∧
    (s.io_offset = 0 ∨ s.selected = false → updateRbi s = none) := by
  constructor
  · intro hsel hio
    have hcond : ¬ (s.io_offset = 0 ∨ s.selected = false) := by
      rintro (h | h)
      · exact hio h
      · rw [hsel] at h
        cases h
    simp only [updateRbi, if_neg hcond, and_one_ne_zero_eq_testBit]
  · intro h
    simp only [updateRbi, if_pos h]

/-- C7 witness: selected card at io_offset 5 with rbi bit 4 set is reported
busy (device-ready line driven false). -/
theorem C7_witness :
    ({ muxW with selected := true, io_offset := 5, rbi := 0x10 } : MuxState).selected = true ∧
    ({ muxW with selected := true, io_offset := 5, rbi := 0x10 } : MuxState).io_offset ≠ 0 ∧
    updateRbi { muxW with selected := true, io_offset := 5, rbi := 0x10 } =
      some (!(((({ muxW with selected := true, io_offset := 5, rbi := 0x10 } : MuxState).obs_seen ||
        ({ muxW with selected := true, io_offset := 5, rbi := 0x10 } : MuxState).cbs_seen) &&
        decide (4 ≤ ({ muxW with selected := true, io_offset := 5, rbi := 0x10 } : MuxState).io_offset)) ||
        ({ muxW with selected := true, io_offset := 5, rbi := 0x10 } : MuxState).rbi.testBit
          (({ muxW with selected := true, io_offset := 5, rbi := 0x10 } : MuxState).io_offset - 1))) :=
  ⟨by decide, by decide,
   (C7_theorem { muxW with selected := true, io_offset := 5, rbi := 0x10 }).1
     (by decide) (by decide)⟩

/-- C8: reconnection attempt n (0-indexed) sleeps min(10000, 250 * 2^min(n,5))
milliseconds, the driver gives up once the attempt counter reaches 10, and a
successful open resets the counter to zero. -/
theorem C8_theorem (n : Nat) (c b : Bool) :
    (n < MAX_RECONNECT_ATTEMPTS →
      reconnectStep { attempts := n, connected := c } b =
        some (min 10000 (250 * 2 ^ min n 5),
          if b then { attempts := 0, connected := true }
          else { attempts := n + 1, connected := false })) ∧
    (MAX_RECONNECT_ATTEMPTS ≤ n →
      reconnectStep { attempts := n, connected := c } b = none) := by
  constructor
  · intro h
    have h1 : ({ attempts := n, connected := c } : ReconnectState).attempts <
        MAX_RECONNECT_ATTEMPTS := h
    simp only [reconnectStep, if_pos h1, getReconnectDelayMs_formula]
    cases b
    · simp
    · simp
  · intro h
    have h1 : ¬ ({ attempts := n, connected := c } : ReconnectState).attempts <
        MAX_RECONNECT_ATTEMPTS := by
      show ¬ n < MAX_RECONNECT_ATTEMPTS
      omega
    simp only [reconnectStep, if_neg h1]

/-- C8 witness: attempt 3 sleeps 2000 ms and a failed reopen advances the
counter to 4. -/
theorem C8_witness :
    3 < MAX_RECONNECT_ATTEMPTS ∧
    reconnectStep { attempts := 3, connected := false } false =
      some (min 10000 (250 * 2 ^ min 3 5),
        if false then ({ attempts := 0, connected := true } : ReconnectState)
        else { attempts := 3 + 1, connected := false }) :=
  ⟨by decide, (C8_theorem 3 false false).1 (by decide)⟩

/-- C9: receiveKeystroke on a channel whose serial_port is bound (non-null)
is a no-op on the whole card state; on a channel without a serial port it
enqueues the (uint8-cast) keycode through queueRxByte. -/
theorem C9_theorem (s : MuxState) (n k : Nat) :
    ((s.terms.getD n default).serial_port = true →
      receiveKeystroke s n k = s) ∧
    ((s.terms.getD n default).serial_port = false →
      receiveKeystroke s n k = queueRxByte s n (k % 256)) := by
  constructor
  · intro h
    simp only [receiveKeystroke, if_pos h]
  · intro h
    have h1 : ¬ (s.terms.getD n default).serial_port = true := by
      rw [h]
      simp
    simp only [receiveKeystroke, if_neg h1]

/-- C9 witness: a keystroke on the serial-bound channel of muxW2 changes
nothing. -/
theorem C9_witness :
    (muxW2.terms.getD 0 default).serial_port = true ∧
    receiveKeystroke muxW2 0 65 = muxW2 :=
  ⟨by decide, (C9_theorem muxW2 0 65).1 (by decide)⟩

/-- C10: on a channel with neither an open serial port nor an active session,
sendXON and sendXOFF are no-ops (no byte emitted, no state change), and
consequently xoff_sent can only become true on a bound channel. -/
theorem C10_theorem (t : MTerm) :
    (¬ flowBound t → sendXON t = t ∧ sendXOFF t = t) ∧
    ((sendXOFF t).xoff_sent = true → t.xoff_sent = true ∨ flowBound t) := by
  constructor
  · intro h
    exact ⟨sendXON_unbound t h, sendXOFF_unbound t h⟩
  · intro h
    by_cases hb : flowBound t
    · exact Or.inr hb
    · rw [sendXOFF_unbound t hb] at h
      exact Or.inl h

/-- C10 witness: both flow-control sends are identities on a fresh unbound
channel. -/
theorem C10_witness :
    ¬ flowBound MTerm.init ∧
    (sendXON MTerm.init = MTerm.init ∧ sendXOFF MTerm.init = MTerm.init) :=
  ⟨by decide, (C10_theorem MTerm.init).1 (by decide)⟩

/-- C5: each receive-path operation (single-byte queue, batch queue, UART
data-port read, GUI keystroke, serial RX byte) preserves the invariant that
interrupt_pending equals the OR over populated channels of FIFO
non-emptiness. -/
theorem C5_theorem (s : MuxState) (n b k : Nat) (data : List Nat)
    (h : interruptInv s) :
    interruptInv (queueRxByte s n b) ∧
    interruptInv (queueRxBytes s n data) ∧
    interruptInv (uartDataRead s).2 ∧
    interruptInv (receiveKeystroke s n k) ∧
    interruptInv (serialRxByte s n b) :=
  ⟨interruptInv_queueRxByte s n b h,
   interruptInv_queueRxBytes s n data h,
   interruptInv_uartDataRead s,
   interruptInv_receiveKeystroke s n k h,
   interruptInv_serialRxByte s n b h⟩

/-- C5 witness: the invariant holds on the fresh card and is preserved by a
concrete instance of every operation. -/
theorem C5_witness :
    interruptInv muxW ∧
    (interruptInv (queueRxByte muxW 0 65) ∧
     interruptInv (queueRxBytes muxW 0 [67]) ∧
     interruptInv (uartDataRead muxW).2 ∧
     interruptInv (receiveKeystroke muxW 0 66) ∧
     interruptInv (serialRxByte muxW 0 65)) :=
  ⟨by decide, C5_theorem muxW 0 65 66 [67] (by decide)⟩

/-- C1 counterexample: the batch entry point queueRxBytes does not filter
flow-control bytes; delivering XON (0x11) through it leaves 0x11 in the
channel's rx_fifo. -/
theorem C1_counterexample :
    (0x11 : Nat) ∈
      ((queueRxBytes muxW 0 [0x11]).terms.getD 0 default).rx_fifo := by
  decide

/-- C1 (amended): a byte equal to 0x11 or 0x13 delivered through the
single-byte RX entry points (queueRxByte, serialRxByte) never appears in any
channel's rx_fifo; the batch entry point queueRxBytes does not filter them. -/
theorem C1_theorem (s : MuxState) (n b m x : Nat)
    (hx : x = 0x11 ∨ x = 0x13)
    (hmem : x ∉ (s.terms.getD m default).rx_fifo) :
    x ∉ ((queueRxByte s n b).terms.getD m default).rx_fifo ∧
    x ∉ ((serialRxByte s n b).terms.getD m default).rx_fifo := by
  have hq : x ∉ ((queueRxByte s n b).terms.getD m default).rx_fifo := by
    by_cases hnm : n = m
    · subst hnm
      by_cases hlt : n < s.terms.length
      · rw [queueRxByte_getD_self s n b hlt]
        exact queueRxByteT_fc_not_mem _ _ _ hx hmem
      · rw [queueRxByte_terms_oob s n b (by omega)]
        exact hmem
    · rw [queueRxByte_getD_ne s b hnm]
      exact hmem
  refine ⟨hq, ?_⟩
  intro hin
  rw [serialRxByte_getD_fifo] at hin
  exact hq hin

/-- C1 witness: delivering 0x41 through both single-byte entry points keeps
0x11 out of the FIFO of channel 0 of the fresh card. -/
theorem C1_witness :
    ((0x11 : Nat) = 0x11 ∨ (0x11 : Nat) = 0x13) ∧
    (0x11 : Nat) ∉ (muxW.terms.getD 0 default).rx_fifo ∧
    ((0x11 : Nat) ∉ ((queueRxByte muxW 0 0x41).terms.getD 0 default).rx_fifo ∧
     (0x11 : Nat) ∉ ((serialRxByte muxW 0 0x41).terms.getD 0 default).rx_fifo) :=
  ⟨by decide, by decide, C1_theorem muxW 0 0x41 0 0x11 (by decide) (by decide)⟩


/-- C2 counterexample: batch insert of the single byte 0x11 into the fresh
card differs from sequential insert of the same byte (the batch path stores
the flow-control byte, the sequential path consumes it). -/
theorem C2_counterexample :
    ¬ (((queueRxBytes muxW 0 [0x11]).terms.getD 0 default).rx_fifo =
         ((pushSeq muxW 0 [0x11]).terms.getD 0 default).rx_fifo ∧
       ((queueRxBytes muxW 0 [0x11]).terms.getD 0 default).rx_overrun_drops =
         ((pushSeq muxW 0 [0x11]).terms.getD 0 default).rx_overrun_drops) := by
  decide

/-- C2 (amended): for byte sequences containing no 0x11/0x13 that fit into
the channel's free FIFO space, batch insert leaves the channel's rx_fifo and
rx_overrun_drops in the same state as sequential insert, and the final
interrupt_pending values agree. -/
theorem C2_theorem (s : MuxState) (n : Nat) (data : List Nat)
    (h : n < s.terms.length)
    (hFC : ∀ b ∈ data, ¬(b = 0x11 ∨ b = 0x13))
    (hfit : (s.terms.getD n default).rx_fifo.length + data.length ≤
      RX_FIFO_MAX) :
    ((queueRxBytes s n data).terms.getD n default).rx_fifo =
      ((pushSeq s n data).terms.getD n default).rx_fifo ∧
    ((queueRxBytes s n data).terms.getD n default).rx_overrun_drops =
      ((pushSeq s n data).terms.getD n default).rx_overrun_drops ∧
    (queueRxBytes s n data).interrupt_pending =
      (pushSeq s n data).interrupt_pending := by
  by_cases hd : data.length = 0
  · have hdata : data = [] := List.length_eq_zero.mp hd
    subst hdata
    have hb : queueRxBytes s n [] = s := by
      simp [queueRxBytes]
    rw [hb, pushSeq_nil]
    exact ⟨rfl, rfl, rfl⟩
  · have hbatch : (queueRxBytes s n data).terms.getD n default =
        { s.terms.getD n default with
          rx_fifo := (s.terms.getD n default).rx_fifo ++ data } := by
      rw [queueRxBytes_getD_self s n data h hd, queueRxBytesCore_fit _ _ hd hfit]
    have hbf : ((queueRxBytes s n data).terms.getD n default).rx_fifo =
        (s.terms.getD n default).rx_fifo ++ data := by
      rw [hbatch]
    have hbd : ((queueRxBytes s n data).terms.getD n default).rx_overrun_drops =
        (s.terms.getD n default).rx_overrun_drops := by
      rw [hbatch]
    have hlenle : (s.terms.getD n default).rx_fifo.length ≤ RX_FIFO_MAX := by
      omega
    obtain ⟨hsf, hsd⟩ := pushSeqT_fifo_drops data (s.terms.getD n default)
      hFC hlenle
    have hz : (s.terms.getD n default).rx_fifo.length + data.length -
        RX_FIFO_MAX = 0 := by omega
    rw [hz] at hsf hsd
    simp only [List.drop_zero, Nat.add_zero] at hsf hsd
    have hseqf : ((pushSeq s n data).terms.getD n default).rx_fifo =
        (s.terms.getD n default).rx_fifo ++ data := by
      rw [pushSeq_getD_self data s n h, hsf]
    have hseqd : ((pushSeq s n data).terms.getD n default).rx_overrun_drops =
        (s.terms.getD n default).rx_overrun_drops := by
      rw [pushSeq_getD_self data s n h, hsd]
    refine ⟨by rw [hbf, hseqf], by rw [hbd, hseqd], ?_⟩
    have hne : data ≠ [] := by
      intro hh
      rw [hh] at hd
      exact hd rfl
    have hib : (queueRxBytes s n data).interrupt_pending =
        updateInterruptB (queueRxBytes s n data) :=
      interruptInv_queueRxBytes_ne s n data hd
    have his : (pushSeq s n data).interrupt_pending =
        updateInterruptB (pushSeq s n data) :=
      interruptInv_pushSeq data s n hne hFC
    rw [hib, his]
    apply updateInterruptB_congr
    · rw [queueRxBytes_num_terms, pushSeq_num_terms]
    · intro i
      by_cases hni : n = i
      · subst hni
        rw [hbf, hseqf]
      · rw [queueRxBytes_getD_ne s data hni, pushSeq_getD_ne data s hni]

/-- C2 witness: batch and sequential insert of [0x41, 0x42] into the fresh
card agree on FIFO contents, drop counter, and interrupt line. -/
theorem C2_witness :
    0 < muxW.terms.length ∧
    (∀ b ∈ [0x41, 0x42], ¬(b = 0x11 ∨ b = 0x13)) ∧
    (muxW.terms.getD 0 default).rx_fifo.length +
      ([0x41, 0x42] : List Nat).length ≤ RX_FIFO_MAX ∧
    (((queueRxBytes muxW 0 [0x41, 0x42]).terms.getD 0 default).rx_fifo =
       ((pushSeq muxW 0 [0x41, 0x42]).terms.getD 0 default).rx_fifo ∧
     ((queueRxBytes muxW 0 [0x41, 0x42]).terms.getD 0 default).rx_overrun_drops =
       ((pushSeq muxW 0 [0x41, 0x42]).terms.getD 0 default).rx_overrun_drops ∧
     (queueRxBytes muxW 0 [0x41, 0x42]).interrupt_pending =
       (pushSeq muxW 0 [0x41, 0x42]).interrupt_pending) :=
  ⟨by decide, by decide, by decide,
   C2_theorem muxW 0 [0x41, 0x42] (by decide) (by decide) (by decide)⟩

/-- C3: pushing a sequence of RX_FIFO_MAX + k non-flow-control bytes one at a
time through the sequential RX entry point into an empty FIFO leaves exactly
the last RX_FIFO_MAX bytes in order and increases rx_overrun_drops by
exactly k. -/
theorem C3_theorem (s : MuxState) (n k : Nat) (S : List Nat)
    (h : n < s.terms.length)
    (hlen : S.length = RX_FIFO_MAX + k)
    (hFC : ∀ b ∈ S, ¬(b = 0x11 ∨ b = 0x13))
    (hempty : (s.terms.getD n default).rx_fifo = []) :
    ((pushSeq s n S).terms.getD n default).rx_fifo = S.drop k ∧
    ((pushSeq s n S).terms.getD n default).rx_overrun_drops =
      (s.terms.getD n default).rx_overrun_drops + k := by
  rw [pushSeq_getD_self S s n h]
  obtain ⟨hf, hd⟩ := pushSeqT_fifo_drops S (s.terms.getD n default) hFC
    (by rw [hempty]; simp)
  rw [hempty] at hf hd
  simp only [List.length_nil, List.nil_append, Nat.zero_add] at hf hd
  have hidx : RX_FIFO_MAX + k - RX_FIFO_MAX = k := by omega
  constructor
  · rw [hf, hlen, hidx]
  · rw [hd, hlen, hidx]

/-- C3 witness: 2050 identical bytes into the empty channel leave the last
2048 and count 2 drops. -/
theorem C3_witness :
    0 < muxW.terms.length ∧
    (List.replicate 2050 0x41).length = RX_FIFO_MAX + 2 ∧
    (muxW.terms.getD 0 default).rx_fifo = [] ∧
    (((pushSeq muxW 0 (List.replicate 2050 0x41)).terms.getD 0
        default).rx_fifo = (List.replicate 2050 0x41).drop 2 ∧
     ((pushSeq muxW 0 (List.replicate 2050 0x41)).terms.getD 0
        default).rx_overrun_drops =
       (muxW.terms.getD 0 default).rx_overrun_drops + 2) :=
  ⟨by decide, by rw [List.length_replicate, RX_FIFO_MAX_eq], by decide,
   C3_theorem muxW 0 2 (List.replicate 2050 0x41) (by decide)
     (by rw [List.length_replicate, RX_FIFO_MAX_eq])
     (by intro b hb
         have hbe := List.eq_of_mem_replicate hb
         subst hbe
         decide)
     (by decide)⟩


/-- Per-channel flow-control scenario: pushing 1537 non-flow-control bytes
into an empty quiescent bound channel emits exactly one XOFF, and draining
1025 bytes afterwards emits exactly one XON. -/
theorem scenarioT (t : MTerm) (S : List Nat)
    (hb : flowBound t)
    (hp : (t.serial_port && t.serial_is_open) = true → t.port_xoff = false)
    (hf : t.rx_fifo = []) (hx : t.xoff_sent = false)
    (hxc : t.xoff_sent_count = 0) (hnc : t.xon_sent_count = 0)
    (hS : S.length = 1537)
    (hFC : ∀ b ∈ S, ¬(b = 0x11 ∨ b = 0x13)) :
    (pushSeqT t S).out = t.out ++ [0x13] ∧
    (pushSeqT t S).xoff_sent = true ∧
    (pushSeqT t S).xoff_sent_count = 1 ∧
    (pushSeqT t S).xon_sent_count = 0 ∧
    (drainT (pushSeqT t S) 1025).out = t.out ++ [0x13, 0x11] ∧
    (drainT (pushSeqT t S) 1025).xoff_sent = false ∧
    (drainT (pushSeqT t S) 1025).xoff_sent_count = 1 ∧
    (drainT (pushSeqT t S) 1025).xon_sent_count = 1 := by
  have hTH : RX_FIFO_XOFF_THRESHOLD = 1536 := XOFF_TH_eq
  have hXON : RX_FIFO_XON_THRESHOLD = 512 := XON_TH_eq
  have hM : RX_FIFO_MAX = 2048 := RX_FIFO_MAX_eq
  have hfl : t.rx_fifo.length = 0 := by
    rw [hf]
    rfl
  have hpush : pushSeqT t S =
      { t with rx_fifo := t.rx_fifo ++ S,
               xoff_sent := true,
               xoff_sent_count := t.xoff_sent_count + 1,
               out := t.out ++ [0x13],
               port_xoff := (t.serial_port && t.serial_is_open) ||
                 t.port_xoff } :=
    pushSeqT_cross S t hFC hb hp hx (by omega) (by omega) (by omega)
  have hd1 : drainT
      ({ t with rx_fifo := t.rx_fifo ++ S,
                xoff_sent := true,
                xoff_sent_count := t.xoff_sent_count + 1,
                out := t.out ++ [0x13],
                port_xoff := (t.serial_port && t.serial_is_open) ||
                  t.port_xoff } : MTerm) 1024 =
      { t with rx_fifo := (t.rx_fifo ++ S).drop 1024,
               xoff_sent := true,
               xoff_sent_count := t.xoff_sent_count + 1,
               out := t.out ++ [0x13],
               port_xoff := (t.serial_port && t.serial_is_open) ||
                 t.port_xoff } :=
    drainT_high 1024 _ rfl
      (by show 1024 ≤ (t.rx_fifo ++ S).length
          simp only [List.length_append]
          omega)
      (by show RX_FIFO_XON_THRESHOLD < (t.rx_fifo ++ S).length - 1024
          simp only [List.length_append]
          omega)
  have hd2 : drainT
      ({ t with rx_fifo := (t.rx_fifo ++ S).drop 1024,
                xoff_sent := true,
                xoff_sent_count := t.xoff_sent_count + 1,
                out := t.out ++ [0x13],
                port_xoff := (t.serial_port && t.serial_is_open) ||
                  t.port_xoff } : MTerm) 1 =
      { t with rx_fifo := ((t.rx_fifo ++ S).drop 1024).tail,
               xoff_sent := false,
               xoff_sent_count := t.xoff_sent_count + 1,
               xon_sent_count := t.xon_sent_count + 1,
               out := (t.out ++ [0x13]) ++ [0x11],
               port_xoff := !(t.serial_port && t.serial_is_open) &&
                 ((t.serial_port && t.serial_is_open) || t.port_xoff) } :=
    drainT_cross _ rfl hb
      (by intro hsp
          show ((t.serial_port && t.serial_is_open) || t.port_xoff) = true
          rw [(hsp : (t.serial_port && t.serial_is_open) = true)]
          rfl)
      (by show ((t.rx_fifo ++ S).drop 1024).length =
            RX_FIFO_XON_THRESHOLD + 1
          simp only [List.length_drop, List.length_append]
          omega)
  have hdrain : drainT (pushSeqT t S) 1025 =
      { t with rx_fifo := ((t.rx_fifo ++ S).drop 1024).tail,
               xoff_sent := false,
               xoff_sent_count := t.xoff_sent_count + 1,
               xon_sent_count := t.xon_sent_count + 1,
               out := (t.out ++ [0x13]) ++ [0x11],
               port_xoff := !(t.serial_port && t.serial_is_open) &&
                 ((t.serial_port && t.serial_is_open) || t.port_xoff) } := by
    rw [hpush, show (1025 : Nat) = 1024 + 1 from rfl, drainT_add, hd1, hd2]
  refine ⟨?_, ?_, ?_, ?_, ?_, ?_, ?_, ?_⟩
  · rw [hpush]
  · rw [hpush]
  · rw [hpush]
    show t.xoff_sent_count + 1 = 1
    rw [hxc]
  · rw [hpush]
    show t.xon_sent_count = 0
    exact hnc
  · rw [hdrain]
    show (t.out ++ [0x13]) ++ [0x11] = t.out ++ [0x13, 0x11]
    rw [List.append_assoc]
    rfl
  · rw [hdrain]
  · rw [hdrain]
    show t.xoff_sent_count + 1 = 1
    rw [hxc]
  · rw [hdrain]
    show t.xon_sent_count + 1 = 1
    rw [hnc]

/-- C4: on a channel bound to an open serial port or active session, pushing
1537 non-flow-control bytes into an empty FIFO via the sequential RX entry
point emits exactly one XOFF (0x13) on the channel's outbound path, sets
xoff_sent and makes xoff_sent_count = 1; draining 1025 bytes via UART
data-port (0x06) reads then emits exactly one XON (0x11), clears xoff_sent,
and makes xon_sent_count = 1. -/
theorem C4_theorem (s : MuxState) (n : Nat) (S : List Nat)
    (hn : n < s.terms.length) (hsel : s.uart_sel = n)
    (hb : flowBound (s.terms.getD n default))
    (hp : ((s.terms.getD n default).serial_port &&
           (s.terms.getD n default).serial_is_open) = true →
          (s.terms.getD n default).port_xoff = false)
    (hf : (s.terms.getD n default).rx_fifo = [])
    (hx : (s.terms.getD n default).xoff_sent = false)
    (hxc : (s.terms.getD n default).xoff_sent_count = 0)
    (hnc : (s.terms.getD n default).xon_sent_count = 0)
    (hS : S.length = 1537)
    (hFC : ∀ b ∈ S, ¬(b = 0x11 ∨ b = 0x13)) :
    ((pushSeq s n S).terms.getD n default).out =
        (s.terms.getD n default).out ++ [0x13] ∧
    ((pushSeq s n S).terms.getD n default).xoff_sent = true ∧
    ((pushSeq s n S).terms.getD n default).xoff_sent_count = 1 ∧
    ((pushSeq s n S).terms.getD n default).xon_sent_count = 0 ∧
    ((drainCard (pushSeq s n S) 1025).terms.getD n default).out =
        (s.terms.getD n default).out ++ [0x13, 0x11] ∧
    ((drainCard (pushSeq s n S) 1025).terms.getD n default).xoff_sent =
      false ∧
    ((drainCard (pushSeq s n S) 1025).terms.getD n default).xoff_sent_count
      = 1 ∧
    ((drainCard (pushSeq s n S) 1025).terms.getD n default).xon_sent_count
      = 1 := by
  have hsc := scenarioT (s.terms.getD n default) S hb hp hf hx hxc hnc hS hFC
  have hp1 : (pushSeq s n S).terms.getD n default =
      pushSeqT (s.terms.getD n default) S := pushSeq_getD_self S s n hn
  have hsel1 : (pushSeq s n S).uart_sel = n := by
    rw [pushSeq_uart_sel, hsel]
  have hlen1 : (pushSeq s n S).uart_sel < (pushSeq s n S).terms.length := by
    rw [hsel1, pushSeq_terms_length]
    exact hn
  obtain ⟨hdg, -, -⟩ := drainCard_spec 1025 (pushSeq s n S) hlen1
  rw [hsel1] at hdg
  rw [hp1] at hdg
  obtain ⟨o1, x1, c1, n1, o2, x2, c2, n2⟩ := hsc
  exact ⟨by rw [hp1]; exact o1, by rw [hp1]; exact x1,
         by rw [hp1]; exact c1, by rw [hp1]; exact n1,
         by rw [hdg]; exact o2, by rw [hdg]; exact x2,
         by rw [hdg]; exact c2, by rw [hdg]; exact n2⟩


/-- C4 witness: the scenario run on the serial-bound channel of muxW2 with
1537 identical bytes. -/
theorem C4_witness :
    0 < muxW2.terms.length ∧
    muxW2.uart_sel = 0 ∧
    flowBound (muxW2.terms.getD 0 default) ∧
    (muxW2.terms.getD 0 default).rx_fifo = [] ∧
    (List.replicate 1537 0x41).length = 1537 ∧
    (((pushSeq muxW2 0 (List.replicate 1537 0x41)).terms.getD 0 default).out
        = (muxW2.terms.getD 0 default).out ++ [0x13] ∧
     ((pushSeq muxW2 0 (List.replicate 1537 0x41)).terms.getD 0
        default).xoff_sent = true ∧
     ((pushSeq muxW2 0 (List.replicate 1537 0x41)).terms.getD 0
        default).xoff_sent_count = 1 ∧
     ((pushSeq muxW2 0 (List.replicate 1537 0x41)).terms.getD 0
        default).xon_sent_count = 0 ∧
     ((drainCard (pushSeq muxW2 0 (List.replicate 1537 0x41)) 1025).terms.getD
        0 default).out = (muxW2.terms.getD 0 default).out ++ [0x13, 0x11] ∧
     ((drainCard (pushSeq muxW2 0 (List.replicate 1537 0x41)) 1025).terms.getD
        0 default).xoff_sent = false ∧
     ((drainCard (pushSeq muxW2 0 (List.replicate 1537 0x41)) 1025).terms.getD
        0 default).xoff_sent_count = 1 ∧
     ((drainCard (pushSeq muxW2 0 (List.replicate 1537 0x41)) 1025).terms.getD
        0 default).xon_sent_count = 1) :=
  ⟨by decide, by decide, by decide, by decide, by rw [List.length_replicate],
   C4_theorem muxW2 0 (List.replicate 1537 0x41) (by decide) (by decide)
     (by decide) (by decide) (by decide) (by decide) (by decide) (by decide)
     (by rw [List.length_replicate])
     (by intro b hb
         have hbe := List.eq_of_mem_replicate hb
         subst hbe
         decide)⟩

end Wangemu
